import Mathlib

/-!
Shallow embedding of `mypy/maptype.py`: the generic-supertype-mapping engine.

Classes (mypy `TypeInfo` nodes) are modelled as entries of a list (the
hierarchy registry); a class is referred to by its index.  The base-edge
graph is acyclic by an upstream invariant; here this is reflected by the
well-formedness predicate `basesBelowB` (classes are topologically indexed,
every direct base has a smaller index), which also serves as the
termination measure of the path enumerator.

Type expressions (`Ty`) cover the fragment of mypy's type representation
that `maptype.py` touches: nominal instances, type variables (keyed by
their `TypeVarId`), `AnyType` with its `TypeOfAny` reason tag, and tuple
types.  The external collaborators of `maptype.py` that are not part of
the sources (`mypy.expandtype.expand_type`, `mypy.typeops.tuple_fallback`,
`mypy.types.has_type_vars`) are modelled from the spec; each such
definition says so in its doc comment.
-/

namespace Maptype

/-- The reason tag of a dynamic (`Any`) marker, mirroring the two
`TypeOfAny` members used by `maptype.py`: `unannotated` (relationship left
implicit in the source) and `from_error` (symptom of an upstream error). -/
inductive TypeOfAny where
  | unannotated
  | from_error
deriving DecidableEq

mutual
/-- Type expressions: nominal instance applications, type variables keyed
by identity, dynamic markers with a reason tag, and tuple types. -/
inductive Ty where
  | instTy (cls : Nat) (args : TyList)
  | varTy (id : Nat)
  | anyTy (tag : TypeOfAny)
  | tupleTy (items : TyList)
deriving DecidableEq
/-- Argument lists of type expressions (a specialised list, so that all
recursions over `Ty` are structural). -/
inductive TyList where
  | nil
  | cons (head : Ty) (tail : TyList)
deriving DecidableEq
end

/-- Convert a `TyList` to an ordinary list. -/
def TyList.toList : TyList → List Ty
  | .nil => []
  | .cons t ts => t :: ts.toList

/-- Convert an ordinary list of type expressions to a `TyList`. -/
def TyList.ofList : List Ty → TyList
  | [] => .nil
  | t :: ts => .cons t (TyList.ofList ts)

/-- A nominal type with no arguments (e.g. `builtins.int`). -/
def nominal (cls : Nat) : Ty := Ty.instTy cls TyList.nil

mutual
/-- Modelled from the spec: `mypy.types.has_type_vars` (not among the
sources) — whether a type expression mentions any type variable. -/
def has_type_vars : Ty → Bool
  | .instTy _ args => has_type_vars_list args
  | .varTy _ => true
  | .anyTy _ => false
  | .tupleTy items => has_type_vars_list items
/-- Whether any member of a `TyList` mentions a type variable. -/
def has_type_vars_list : TyList → Bool
  | .nil => false
  | .cons t ts => has_type_vars t || has_type_vars_list ts
end

mutual
/-- Modelled from the spec: the generic expansion collaborator
`mypy.expandtype.expand_type` (not among the sources) — rewrite a type
expression by substituting bound type-variable identities through the
substitution environment; unbound variables are left in place. -/
def expand_type (env : List (Nat × Ty)) : Ty → Ty
  | .instTy c args => .instTy c (expand_type_list env args)
  | .varTy i => ((env.lookup i).getD (.varTy i))
  | .anyTy tag => .anyTy tag
  | .tupleTy items => .tupleTy (expand_type_list env items)
/-- Pointwise expansion of a `TyList`. -/
def expand_type_list (env : List (Nat × Ty)) : TyList → TyList
  | .nil => .nil
  | .cons t ts => .cons (expand_type env t) (expand_type_list env ts)
end

/-- One direct base edge of a class: the base class together with the
type-argument expressions (over the child's own type parameters) the
child declares for it.  This is the `Instance` stored in
`TypeInfo.bases`. -/
structure BaseEdge where
  cls : Nat
  args : List Ty
deriving DecidableEq

/-- A class descriptor (mypy `TypeInfo`): qualified name, the identities
of its own type parameters in declaration order, its direct base edges,
an optional tuple shape, and the recursion flag of the special alias
attached to a tuple-shaped class (the spec's precomputed
self-referentiality flag, which this core only consults). -/
structure ClassInfo where
  fullname : String
  type_vars : List Nat
  bases : List BaseEdge
  tuple_type : Option Ty
  special_alias_is_recursive : Bool
deriving DecidableEq

/-- The inert descriptor returned for indices outside the registry. -/
def emptyClass : ClassInfo := ⟨"", [], [], none, false⟩

/-- The class-hierarchy registry: class `c` is the entry at index `c`. -/
abbrev Hierarchy := List ClassInfo

/-- Look a class up in the registry (out-of-range indices give an inert
empty descriptor). -/
def getClass (h : Hierarchy) (c : Nat) : ClassInfo := (h[c]?).getD emptyClass

/-- An instance: a parameterized application of a class to a sequence of
type arguments (mypy `Instance`). -/
structure Instance where
  cls : Nat
  args : List Ty
deriving DecidableEq

/-- `instance_to_type_environment` from `maptype.py`: the class's type
variables mapped, by their id and in declaration order, to the instance's
actual arguments (the Python dict comprehension over
`zip(instance.type.defn.type_vars, instance.args)`). -/
def instance_to_type_environment (h : Hierarchy) (inst : Instance) : List (Nat × Ty) :=
  List.zip (getClass h inst.cls).type_vars inst.args

/-- Fuel-indexed body of `class_derivation_paths`.  The fuel is the
termination device standing in for the upstream acyclicity invariant; a
class only recurses into bases with smaller indices (`basesBelowB`), so
fuel `typ + 1` always suffices on well-formed hierarchies. -/
def class_derivation_paths_aux (h : Hierarchy) : Nat → Nat → Nat → List (List Nat)
  | 0, _, _ => []
  | fuel + 1, typ, supertype =>
    (getClass h typ).bases.flatMap fun base =>
      if base.cls = supertype then
        [[base.cls]]
      else
        (class_derivation_paths_aux h fuel base.cls supertype).map fun path => base.cls :: path

/-- `class_derivation_paths` from `maptype.py`: all non-empty paths of
direct base classes from `typ` to `supertype`; `[]` if there is none. -/
def class_derivation_paths (h : Hierarchy) (typ supertype : Nat) : List (List Nat) :=
  class_derivation_paths_aux h (typ + 1) typ supertype

/-- `map_instance_to_direct_supertypes` from `maptype.py`: for every base
edge of the instance's class whose class is `supertype`, expand the
edge's argument expressions through the instance's substitution
environment; if there is no such edge, fall back to a single
instantiation whose arguments are all `Any (unannotated)`. -/
def map_instance_to_direct_supertypes (h : Hierarchy) (inst : Instance) (supertype : Nat) :
    List Instance :=
  let result := (getClass h inst.cls).bases.filterMap fun b =>
    if b.cls = supertype then
      some ⟨b.cls, b.args.map (expand_type (instance_to_type_environment h inst))⟩
    else
      none
  if result.isEmpty then
    [⟨supertype, List.replicate (getClass h supertype).type_vars.length
        (Ty.anyTy TypeOfAny.unannotated)⟩]
  else
    result

/-- `map_instance_to_supertypes` from `maptype.py`: walk every derivation
path, composing direct-supertype instantiation step by step, and
concatenate the results across paths; if no path produced anything, fall
back to a single instantiation whose arguments are all
`Any (from_error)`. -/
def map_instance_to_supertypes (h : Hierarchy) (inst : Instance) (supertype : Nat) :
    List Instance :=
  let result := (class_derivation_paths h inst.cls supertype).flatMap fun path =>
    path.foldl
      (fun types sup => types.flatMap fun t => map_instance_to_direct_supertypes h t sup)
      [inst]
  if result.isEmpty then
    [⟨supertype, List.replicate (getClass h supertype).type_vars.length
        (Ty.anyTy TypeOfAny.from_error)⟩]
  else
    result

/-- The index of the class named `builtins.object` in the registry. -/
def objectClassId (h : Hierarchy) : Nat :=
  (h.findIdx? fun c => c.fullname == "builtins.object").getD 0

/-- Modelled from the spec: the join used by the tuple-fallback
collaborator — the nominal common supertype a sequence of element types
collapses to (the element itself when all elements agree, `builtins.object`
otherwise). -/
def join_type_list (h : Hierarchy) : List Ty → Ty
  | [] => nominal (objectClassId h)
  | t :: ts => if ts.all fun s => s == t then t else nominal (objectClassId h)

/-- Modelled from the spec: `mypy.typeops.tuple_fallback` (not among the
sources) — the instantiation of the variable-length-sequence ancestor
whose single element-type argument is the join of the tuple's items. -/
def tuple_fallback (h : Hierarchy) (tupleCls : Nat) (items : List Ty) : Instance :=
  ⟨tupleCls, [join_type_list h items]⟩

/-- The generic-tuple special case of `map_instance_to_supertype`
(lines 20-32 of `maptype.py`): when the target is `builtins.tuple` and
the instance's class has a tuple shape mentioning type variables whose
special alias is not recursive, expand the shape through the instance's
environment and return its tuple fallback; `none` means the check fell
through to the code after the block. -/
def tuple_special_case (h : Hierarchy) (inst : Instance) (superclass : Nat) : Option Instance :=
  if (getClass h superclass).fullname = "builtins.tuple" then
    match (getClass h inst.cls).tuple_type with
    | some shape =>
      if has_type_vars shape then
        if (getClass h inst.cls).special_alias_is_recursive then
          none
        else
          match expand_type (instance_to_type_environment h inst) shape with
          | Ty.tupleTy items => some (tuple_fallback h superclass items.toList)
          | _ => none
      else
        none
    | none => none
  else
    none

/-- The general path of `map_instance_to_supertype` (lines 34-38 of
`maptype.py`): the no-parameters fast path, else the first result of
`map_instance_to_supertypes`. -/
def map_instance_to_supertype_general (h : Hierarchy) (inst : Instance) (superclass : Nat) :
    Instance :=
  if (getClass h superclass).type_vars.isEmpty then
    ⟨superclass, []⟩
  else
    (map_instance_to_supertypes h inst superclass).headD ⟨superclass, []⟩

/-- `map_instance_to_supertype` from `maptype.py`: identity fast path,
then the generic-tuple special case, then the general path. -/
def map_instance_to_supertype (h : Hierarchy) (inst : Instance) (superclass : Nat) : Instance :=
  if inst.cls = superclass then
    inst
  else
    match tuple_special_case h inst superclass with
    | some result => result
    | none => map_instance_to_supertype_general h inst superclass

/-- Whether `s` is the class of one of `k`'s direct base edges. -/
def directBase (h : Hierarchy) (k s : Nat) : Bool :=
  (getClass h k).bases.any fun b => b.cls == s

/-- The spec's notion of a derivation path (written independently of the
enumerator, for the refinement claim about `class_derivation_paths`):
`p = [b1, ..., bn]` is a derivation path from `k` to `supertype` when it
is non-empty, `b1` is a direct base of `k`, each next element is a direct
base of the previous one, and `bn = supertype`. -/
def isDerivationPath (h : Hierarchy) (supertype : Nat) : Nat → List Nat → Bool
  | _, [] => false
  | k, b :: rest =>
    directBase h k b &&
      (if rest.isEmpty then b == supertype else isDerivationPath h supertype b rest)

/-- Well-formedness of the registry ordering: every direct base of a
class has a strictly smaller index (a topological indexing of the acyclic
base graph, the upstream invariant the path enumerator relies on). -/
def basesBelowB (h : Hierarchy) : Bool :=
  (List.range h.length).all fun c =>
    (getClass h c).bases.all fun b => decide (b.cls < c)

/-- Well-formedness of base edges: every base edge declares exactly one
argument per type parameter of the base class (enforced upstream by the
hierarchy builder). -/
def edgeArityOkB (h : Hierarchy) : Bool :=
  (List.range h.length).all fun c =>
    (getClass h c).bases.all fun b =>
      b.args.length == (getClass h b.cls).type_vars.length

/-- Well-formedness of the builtins: a class named `builtins.tuple` has
exactly one type parameter (the element type). -/
def tupleArityOkB (h : Hierarchy) : Bool :=
  h.all fun c => !(c.fullname == "builtins.tuple") || c.type_vars.length == 1

/-- The target `a` is reachable from `k`: either the same class, or some
derivation path connects them. -/
def reachableB (h : Hierarchy) (k a : Nat) : Bool :=
  k == a || !(class_derivation_paths h k a).isEmpty

/-! ## Basic consequences of the well-formedness booleans -/

theorem getClass_of_len_le (h : Hierarchy) (c : Nat) (hc : h.length ≤ c) :
    getClass h c = emptyClass := by
  simp [getClass, List.getElem?_eq_none hc]

theorem basesBelow_prop (h : Hierarchy) (hb : basesBelowB h = true) :
    ∀ c : Nat, ∀ b ∈ (getClass h c).bases, b.cls < c := by
  intro c b hmem
  by_cases hc : c < h.length
  · have h1 := List.all_eq_true.mp hb c (List.mem_range.mpr hc)
    exact of_decide_eq_true (List.all_eq_true.mp h1 b hmem)
  · rw [getClass_of_len_le h c (Nat.le_of_not_lt hc)] at hmem
    simp [emptyClass] at hmem

theorem edgeArity_prop (h : Hierarchy) (ha : edgeArityOkB h = true) :
    ∀ c : Nat, ∀ b ∈ (getClass h c).bases,
      b.args.length = (getClass h b.cls).type_vars.length := by
  intro c b hmem
  by_cases hc : c < h.length
  · have h1 := List.all_eq_true.mp ha c (List.mem_range.mpr hc)
    exact beq_iff_eq.mp (List.all_eq_true.mp h1 b hmem)
  · rw [getClass_of_len_le h c (Nat.le_of_not_lt hc)] at hmem
    simp [emptyClass] at hmem

theorem tupleArity_prop (h : Hierarchy) (ht : tupleArityOkB h = true) (s : Nat)
    (hf : (getClass h s).fullname = "builtins.tuple") :
    (getClass h s).type_vars.length = 1 := by
  by_cases hs : s < h.length
  · have hmem : getClass h s ∈ h := by
      have hget : h[s]? = some h[s] := List.getElem?_eq_getElem hs
      rw [getClass, hget]
      exact List.getElem_mem hs
    have h1 := List.all_eq_true.mp ht _ hmem
    rw [hf] at h1
    simpa using h1
  · rw [getClass_of_len_le h s (Nat.le_of_not_lt hs)] at hf
    simp [emptyClass] at hf

/-! ## Derivation paths: soundness and completeness of the enumerator -/

theorem directBase_of_mem (h : Hierarchy) (k : Nat) (b : BaseEdge)
    (hb : b ∈ (getClass h k).bases) : directBase h k b.cls = true := by
  simp only [directBase, List.any_eq_true]
  exact ⟨b, hb, by simp⟩

theorem exists_edge_of_directBase (h : Hierarchy) (k s : Nat)
    (hd : directBase h k s = true) : ∃ b ∈ (getClass h k).bases, b.cls = s := by
  simp only [directBase, List.any_eq_true] at hd
  obtain ⟨b, hb, hcls⟩ := hd
  exact ⟨b, hb, by simpa using hcls⟩

theorem aux_sound (h : Hierarchy) (s : Nat) :
    ∀ fuel k : Nat, ∀ p ∈ class_derivation_paths_aux h fuel k s,
      isDerivationPath h s k p = true := by
  intro fuel
  induction fuel with
  | zero => intro k p hp; simp [class_derivation_paths_aux] at hp
  | succ f ih =>
    intro k p hp
    simp only [class_derivation_paths_aux, List.mem_flatMap] at hp
    obtain ⟨b, hbmem, hp⟩ := hp
    by_cases hbs : b.cls = s
    · rw [if_pos hbs] at hp
      simp only [List.mem_singleton] at hp
      subst hp
      subst hbs
      simp [isDerivationPath, directBase_of_mem h k b hbmem]
    · rw [if_neg hbs] at hp
      simp only [List.mem_map] at hp
      obtain ⟨q, hq, rfl⟩ := hp
      have hchain := ih b.cls q hq
      have hqne : q ≠ [] := by
        intro hnil; rw [hnil] at hchain; simp [isDerivationPath] at hchain
      rw [isDerivationPath]
      simp [directBase_of_mem h k b hbmem, List.isEmpty_eq_true, hqne, hchain]

theorem chain_target_lt (h : Hierarchy) (s : Nat) (hwf : basesBelowB h = true) :
    ∀ p : List Nat, ∀ k : Nat, isDerivationPath h s k p = true → s < k := by
  intro p
  induction p with
  | nil => intro k hc; simp [isDerivationPath] at hc
  | cons b rest ih =>
    intro k hc
    rw [isDerivationPath, Bool.and_eq_true] at hc
    obtain ⟨hdb, hrest⟩ := hc
    obtain ⟨e, hemem, hecls⟩ := exists_edge_of_directBase h k b hdb
    have hbk : b < k := hecls ▸ basesBelow_prop h hwf k e hemem
    cases rest with
    | nil =>
      simp only [List.isEmpty_nil, if_true, beq_iff_eq] at hrest
      exact hrest ▸ hbk
    | cons r rs =>
      simp only [List.isEmpty_cons, if_false] at hrest
      exact Nat.lt_trans (ih b hrest) hbk

theorem aux_complete (h : Hierarchy) (s : Nat) (hwf : basesBelowB h = true) :
    ∀ p : List Nat, ∀ k fuel : Nat, k < fuel → isDerivationPath h s k p = true →
      p ∈ class_derivation_paths_aux h fuel k s := by
  intro p
  induction p with
  | nil => intro k fuel _ hc; simp [isDerivationPath] at hc
  | cons b rest ih =>
    intro k fuel hkf hc
    rw [isDerivationPath, Bool.and_eq_true] at hc
    obtain ⟨hdb, hrest⟩ := hc
    obtain ⟨e, hemem, hecls⟩ := exists_edge_of_directBase h k b hdb
    obtain ⟨f, rfl⟩ : ∃ f, fuel = f + 1 := by
      cases fuel with
      | zero => exact absurd hkf (Nat.not_lt_zero k)
      | succ f => exact ⟨f, rfl⟩
    simp only [class_derivation_paths_aux, List.mem_flatMap]
    refine ⟨e, hemem, ?_⟩
    cases rest with
    | nil =>
      simp only [List.isEmpty_nil, if_true, beq_iff_eq] at hrest
      rw [if_pos (hecls.trans hrest)]
      simp [hecls, hrest]
    | cons r rs =>
      simp only [List.isEmpty_cons, if_false] at hrest
      have hbk : b < k := hecls ▸ basesBelow_prop h hwf k e hemem
      have hsb : s < b := chain_target_lt h s hwf (r :: rs) b hrest
      have hbns : e.cls ≠ s := by rw [hecls]; exact Nat.ne_of_gt hsb
      rw [if_neg hbns, hecls]
      simp only [List.mem_map]
      exact ⟨r :: rs, ih b f (Nat.lt_of_lt_of_le hbk (Nat.le_of_lt_succ hkf)) hrest, rfl⟩

theorem mem_paths_chain (h : Hierarchy) (k s : Nat) (p : List Nat)
    (hp : p ∈ class_derivation_paths h k s) : isDerivationPath h s k p = true :=
  aux_sound h s (k + 1) k p hp

theorem chain_mem_paths (h : Hierarchy) (k s : Nat) (p : List Nat)
    (hwf : basesBelowB h = true) (hc : isDerivationPath h s k p = true) :
    p ∈ class_derivation_paths h k s :=
  aux_complete h s hwf p k (k + 1) (Nat.lt_succ_self k) hc

theorem chain_getLast (h : Hierarchy) (s : Nat) :
    ∀ p : List Nat, ∀ k : Nat, isDerivationPath h s k p = true →
      p.getLast? = some s := by
  intro p
  induction p with
  | nil => intro k hc; simp [isDerivationPath] at hc
  | cons b rest ih =>
    intro k hc
    rw [isDerivationPath, Bool.and_eq_true] at hc
    obtain ⟨_, hrest⟩ := hc
    cases rest with
    | nil =>
      simp only [List.isEmpty_nil, if_true, beq_iff_eq] at hrest
      simp [hrest]
    | cons r rs =>
      simp only [List.isEmpty_cons, if_false] at hrest
      rw [List.getLast?_cons_cons]
      exact ih b hrest

theorem mem_paths_getLast (h : Hierarchy) (k s : Nat) (p : List Nat)
    (hp : p ∈ class_derivation_paths h k s) : p.getLast? = some s :=
  chain_getLast h s p k (mem_paths_chain h k s p hp)

/-! ## Shape and non-emptiness of the instantiation lists -/

theorem direct_supertypes_ne_nil (h : Hierarchy) (inst : Instance) (s : Nat) :
    map_instance_to_direct_supertypes h inst s ≠ [] := by
  unfold map_instance_to_direct_supertypes
  dsimp only
  split
  · simp
  · next hres => simpa [List.isEmpty_iff] using hres

theorem direct_shape (h : Hierarchy)
    (harity : ∀ c : Nat, ∀ b ∈ (getClass h c).bases,
      b.args.length = (getClass h b.cls).type_vars.length)
    (inst : Instance) (s : Nat) :
    ∀ j ∈ map_instance_to_direct_supertypes h inst s,
      j.cls = s ∧ j.args.length = (getClass h s).type_vars.length := by
  intro j hj
  unfold map_instance_to_direct_supertypes at hj
  dsimp only at hj
  split at hj
  · simp only [List.mem_singleton] at hj
    subst hj
    simp
  · simp only [List.mem_filterMap] at hj
    obtain ⟨b, hbmem, hb⟩ := hj
    by_cases hbs : b.cls = s
    · rw [if_pos hbs] at hb
      obtain rfl := Option.some.inj hb
      refine ⟨hbs, ?_⟩
      simpa [hbs] using harity inst.cls b hbmem
    · rw [if_neg hbs] at hb
      exact absurd hb (Option.noConfusion)

theorem foldl_direct_ne_nil (h : Hierarchy) :
    ∀ p : List Nat, ∀ types : List Instance, types ≠ [] →
      p.foldl
        (fun types sup => types.flatMap fun t => map_instance_to_direct_supertypes h t sup)
        types ≠ [] := by
  intro p
  induction p with
  | nil => intro types ht; simpa using ht
  | cons x xs ih =>
    intro types ht
    rw [List.foldl_cons]
    apply ih
    obtain ⟨t, htmem⟩ := List.exists_mem_of_ne_nil types ht
    obtain ⟨j, hjmem⟩ :=
      List.exists_mem_of_ne_nil _ (direct_supertypes_ne_nil h t x)
    exact List.ne_nil_of_mem (List.mem_flatMap.mpr ⟨t, htmem, hjmem⟩)

theorem foldl_direct_shape (h : Hierarchy)
    (harity : ∀ c : Nat, ∀ b ∈ (getClass h c).bases,
      b.args.length = (getClass h b.cls).type_vars.length) :
    ∀ p : List Nat, ∀ l : Nat, p.getLast? = some l →
      ∀ types : List Instance, ∀ j ∈ p.foldl
          (fun types sup => types.flatMap fun t => map_instance_to_direct_supertypes h t sup)
          types,
        j.cls = l ∧ j.args.length = (getClass h l).type_vars.length := by
  intro p
  induction p with
  | nil => intro l hlast; simp at hlast
  | cons x xs ih =>
    intro l hlast types j hj
    cases xs with
    | nil =>
      simp only [List.getLast?_singleton, Option.some.injEq] at hlast
      subst hlast
      rw [List.foldl_cons, List.foldl_nil] at hj
      obtain ⟨t, _, hjt⟩ := List.mem_flatMap.mp hj
      exact direct_shape h harity t x j hjt
    | cons y ys =>
      rw [List.getLast?_cons_cons] at hlast
      rw [List.foldl_cons] at hj
      exact ih l hlast _ j hj

theorem supertypes_ne_nil (h : Hierarchy) (inst : Instance) (s : Nat) :
    map_instance_to_supertypes h inst s ≠ [] := by
  unfold map_instance_to_supertypes
  dsimp only
  split
  · simp
  · next hres => simpa [List.isEmpty_iff] using hres

theorem supertypes_shape (h : Hierarchy) (ha : edgeArityOkB h = true)
    (inst : Instance) (s : Nat) :
    ∀ j ∈ map_instance_to_supertypes h inst s,
      j.cls = s ∧ j.args.length = (getClass h s).type_vars.length := by
  intro j hj
  unfold map_instance_to_supertypes at hj
  dsimp only at hj
  split at hj
  · simp only [List.mem_singleton] at hj
    subst hj
    simp
  · obtain ⟨p, hpmem, hjp⟩ := List.mem_flatMap.mp hj
    exact foldl_direct_shape h (edgeArity_prop h ha) p s
      (mem_paths_getLast h inst.cls s p hpmem) [inst] j hjp

theorem supertypes_eq_flatMap_of_paths_ne_nil (h : Hierarchy) (inst : Instance) (s : Nat)
    (hp : class_derivation_paths h inst.cls s ≠ []) :
    map_instance_to_supertypes h inst s =
      (class_derivation_paths h inst.cls s).flatMap fun path =>
        path.foldl
          (fun types sup => types.flatMap fun t => map_instance_to_direct_supertypes h t sup)
          [inst] := by
  unfold map_instance_to_supertypes
  dsimp only
  split
  · next hres =>
    exfalso
    rw [List.isEmpty_iff] at hres
    obtain ⟨p, hpmem⟩ := List.exists_mem_of_ne_nil _ hp
    obtain ⟨j, hjmem⟩ := List.exists_mem_of_ne_nil _
      (foldl_direct_ne_nil h p [inst] (by simp))
    exact List.ne_nil_of_mem (List.mem_flatMap.mpr ⟨p, hpmem, hjmem⟩) hres
  · rfl

theorem headD_mem (l : List α) (d : α) (hl : l ≠ []) : l.headD d ∈ l := by
  cases l with
  | nil => exact absurd rfl hl
  | cons x xs => simp

theorem head?_eq_headD (l : List α) (d : α) (hl : l ≠ []) :
    l.head? = some (l.headD d) := by
  cases l with
  | nil => exact absurd rfl hl
  | cons x xs => rfl

/-! ## The tuple special case: characterisations -/

theorem tuple_special_case_none_of_fullname (h : Hierarchy) (inst : Instance) (s : Nat)
    (hf : (getClass h s).fullname ≠ "builtins.tuple") :
    tuple_special_case h inst s = none := by
  unfold tuple_special_case
  rw [if_neg hf]

theorem tuple_special_case_none_of_no_shape (h : Hierarchy) (inst : Instance) (s : Nat)
    (hs : (getClass h inst.cls).tuple_type = none) :
    tuple_special_case h inst s = none := by
  unfold tuple_special_case
  rw [hs]
  split <;> rfl

theorem tuple_special_case_some_shape (h : Hierarchy) (inst : Instance) (s : Nat)
    (r : Instance) (hr : tuple_special_case h inst s = some r) :
    (getClass h s).fullname = "builtins.tuple" ∧
      ∃ items : List Ty, r = ⟨s, [join_type_list h items]⟩ := by
  unfold tuple_special_case at hr
  split at hr
  · next hf =>
    refine ⟨hf, ?_⟩
    split at hr
    · next shape hshape =>
      split at hr
      · split at hr
        · exact absurd hr (Option.noConfusion)
        · split at hr
          · next items hitems =>
            obtain rfl := Option.some.inj hr
            exact ⟨items.toList, rfl⟩
          · exact absurd hr (Option.noConfusion)
      · exact absurd hr (Option.noConfusion)
    · exact absurd hr (Option.noConfusion)
  · exact absurd hr (Option.noConfusion)

/-! ## Auxiliary list lemmas -/

theorem map_fst_zip_take {α β : Type} :
    ∀ (l1 : List α) (l2 : List β), (l1.zip l2).map Prod.fst = l1.take l2.length := by
  intro l1
  induction l1 with
  | nil => intro l2; simp
  | cons x xs ih =>
    intro l2
    cases l2 with
    | nil => simp
    | cons y ys => simp [ih]

theorem map_snd_zip_take {α β : Type} :
    ∀ (l1 : List α) (l2 : List β), (l1.zip l2).map Prod.snd = l2.take l1.length := by
  intro l1
  induction l1 with
  | nil => intro l2; simp
  | cons x xs ih =>
    intro l2
    cases l2 with
    | nil => simp
    | cons y ys => simp [ih]

theorem lookup_zip_get :
    ∀ (keys : List Nat) (vals : List Ty), keys.Nodup →
      ∀ idx : Nat, ∀ h1 : idx < keys.length, ∀ h2 : idx < vals.length,
        (keys.zip vals).lookup keys[idx] = some vals[idx] := by
  intro keys
  induction keys with
  | nil => intro vals _ idx h1; simp at h1
  | cons k ks ih =>
    intro vals hnd idx h1 h2
    cases vals with
    | nil => simp at h2
    | cons v vs =>
      cases idx with
      | zero => simp [List.lookup]
      | succ n =>
        have h1n : n < ks.length := Nat.lt_of_succ_lt_succ h1
        have h2n : n < vs.length := Nat.lt_of_succ_lt_succ h2
        have hne : (ks[n] == k) = false := by
          simp only [beq_eq_false_iff_ne, ne_eq]
          intro he
          exact (List.nodup_cons.mp hnd).1 (he ▸ List.getElem_mem h1n)
        simp only [List.zip_cons_cons, List.getElem_cons_succ, List.lookup, hne]
        exact ih vs (List.nodup_cons.mp hnd).2 n h1n h2n

theorem join_type_list_ne_anyTy (h : Hierarchy) :
    ∀ l : List Ty, (∀ t ∈ l, ∀ tag : TypeOfAny, t ≠ Ty.anyTy tag) →
      ∀ tag : TypeOfAny, join_type_list h l ≠ Ty.anyTy tag := by
  intro l hl tag
  cases l with
  | nil => simp [join_type_list, nominal]
  | cons t ts =>
    simp only [join_type_list]
    split
    · exact hl t (List.mem_cons_self t ts) tag
    · simp [nominal]

/-! ## The claims -/

/-- C2: for every instance `I` of class `K`, `map_instance_to_supertype`
called with target `K` itself returns `I` unchanged — the identity fast
path performs no re-instantiation. -/
theorem c2_identity_fast_path (h : Hierarchy) (inst : Instance) (k : Nat)
    (hk : inst.cls = k) : map_instance_to_supertype h inst k = inst := by
  rw [map_instance_to_supertype, if_pos hk]

/-- C4: if the instance's class declares no direct base edge whose class
is `s`, then `map_instance_to_direct_supertypes` returns exactly one
instantiation of `s` whose arguments are all the `unannotated` dynamic
marker, one per type parameter of `s` (a total function: no error is
raised or reported). -/
theorem c4_unannotated_fallback (h : Hierarchy) (inst : Instance) (s : Nat)
    (hnd : ∀ b ∈ (getClass h inst.cls).bases, b.cls ≠ s) :
    map_instance_to_direct_supertypes h inst s =
      [⟨s, List.replicate (getClass h s).type_vars.length
          (Ty.anyTy TypeOfAny.unannotated)⟩] := by
  unfold map_instance_to_direct_supertypes
  dsimp only
  have hnil : ((getClass h inst.cls).bases.filterMap fun b =>
      if b.cls = s then
        some (⟨b.cls, b.args.map (expand_type (instance_to_type_environment h inst))⟩ :
          Instance)
      else
        none) = [] :=
    List.filterMap_eq_nil_iff.mpr fun b hb => if_neg (hnd b hb)
  rw [hnil]
  rfl

/-- C10: `instance_to_type_environment` never fails on an arity mismatch:
it silently truncates to the shorter of the type-parameter list and the
argument list, binding only the first `min` parameters positionally. -/
theorem c10_truncation_on_arity_mismatch (h : Hierarchy) (inst : Instance) :
    (instance_to_type_environment h inst).length
        = min (getClass h inst.cls).type_vars.length inst.args.length ∧
      (instance_to_type_environment h inst).map Prod.fst
        = (getClass h inst.cls).type_vars.take inst.args.length ∧
      (instance_to_type_environment h inst).map Prod.snd
        = inst.args.take (getClass h inst.cls).type_vars.length := by
  refine ⟨?_, ?_, ?_⟩
  · rw [instance_to_type_environment]
    exact List.length_zip _ _
  · rw [instance_to_type_environment]
    exact map_fst_zip_take _ _
  · rw [instance_to_type_environment]
    exact map_snd_zip_take _ _

/-- C7: under the arity precondition, the substitution environment built
by `instance_to_type_environment` has as keys exactly the identities of
the class's own type parameters, each mapped, in declaration order, to
the instance argument at the same position (a pure, total function). -/
theorem c7_type_environment (h : Hierarchy) (inst : Instance)
    (harity : inst.args.length = (getClass h inst.cls).type_vars.length)
    (hnd : (getClass h inst.cls).type_vars.Nodup) :
    (instance_to_type_environment h inst).map Prod.fst
        = (getClass h inst.cls).type_vars ∧
      ∀ idx : Nat, ∀ h1 : idx < (getClass h inst.cls).type_vars.length,
        ∀ h2 : idx < inst.args.length,
        (instance_to_type_environment h inst).lookup
            (getClass h inst.cls).type_vars[idx] = some inst.args[idx] := by
  constructor
  · rw [instance_to_type_environment]
    exact List.map_fst_zip _ _ (le_of_eq harity.symm)
  · intro idx h1 h2
    rw [instance_to_type_environment]
    exact lookup_zip_get _ _ hnd idx h1 h2

/-- C5: on an acyclic (topologically indexed) hierarchy, the path
enumerator `class_derivation_paths` returns exactly the derivation
paths: the non-empty sequences of classes starting at a direct base of
`k`, following direct-base edges, and ending at `s` (and hence the empty
list when no such sequence exists). -/
theorem c5_path_enumerator_exact (h : Hierarchy) (k s : Nat) (p : List Nat)
    (hwf : basesBelowB h = true) :
    p ∈ class_derivation_paths h k s ↔ isDerivationPath h s k p = true :=
  ⟨mem_paths_chain h k s p, chain_mem_paths h k s p hwf⟩

/-- C3: when no derivation path connects the instance's class to a
target `s` with at least one type parameter, `map_instance_to_supertypes`
returns exactly one instantiation of `s` all of whose arguments carry the
error-derived dynamic tag, and that tag is distinct from the unannotated
tag used by the direct-supertype fallback. -/
theorem c3_error_fallback (h : Hierarchy) (inst : Instance) (s : Nat)
    (hnopath : ∀ p : List Nat, isDerivationPath h s inst.cls p = false)
    (_hs : (getClass h s).type_vars ≠ []) :
    map_instance_to_supertypes h inst s =
        [⟨s, List.replicate (getClass h s).type_vars.length
            (Ty.anyTy TypeOfAny.from_error)⟩] ∧
      TypeOfAny.from_error ≠ TypeOfAny.unannotated := by
  have hcdp : class_derivation_paths h inst.cls s = [] := by
    rw [List.eq_nil_iff_forall_not_mem]
    intro p hp
    have hc := mem_paths_chain h inst.cls s p hp
    rw [hnopath p] at hc
    exact Bool.noConfusion hc
  refine ⟨?_, by decide⟩
  unfold map_instance_to_supertypes
  dsimp only
  rw [hcdp]
  rfl

/-- C6: for a target class `s` with zero type parameters,
`map_instance_to_supertype` returns the zero-argument instantiation of
`s`, whatever the instance and whether or not a derivation path exists
(given the builtins invariant that `builtins.tuple` has one parameter
and the arity precondition on the instance). -/
theorem c6_no_parameter_target (h : Hierarchy) (inst : Instance) (s : Nat)
    (htup : tupleArityOkB h = true)
    (harity : inst.args.length = (getClass h inst.cls).type_vars.length)
    (hs : (getClass h s).type_vars = []) :
    map_instance_to_supertype h inst s = ⟨s, []⟩ := by
  rw [map_instance_to_supertype]
  by_cases hcs : inst.cls = s
  · rw [if_pos hcs]
    have hlen : inst.args.length = 0 := by rw [harity, hcs, hs]; rfl
    obtain ⟨c, a⟩ := inst
    simp only at hcs hlen
    obtain rfl : a = [] := List.eq_nil_of_length_eq_zero hlen
    simp [hcs]
  · rw [if_neg hcs]
    have hnone : tuple_special_case h inst s = none := by
      cases hr : tuple_special_case h inst s with
      | none => rfl
      | some r =>
        obtain ⟨hf, _⟩ := tuple_special_case_some_shape h inst s r hr
        have h1 := tupleArity_prop h htup s hf
        rw [hs] at h1
        exact absurd h1 (by decide)
    rw [hnone]
    rw [map_instance_to_supertype_general, if_pos (by rw [hs]; rfl)]

/-- C1: for an instance whose argument count matches its class's
parameter count and a target `a` reachable from that class, every
instantiation returned by `map_instance_to_supertype` and by
`map_instance_to_supertypes` is an instance of `a` with exactly
`len(a.type_vars)` type arguments, in the order of `a`'s parameter
declarations (on hierarchies satisfying the upstream base-edge-arity and
builtins invariants). -/
theorem c1_arity_preservation (h : Hierarchy) (inst : Instance) (a : Nat)
    (hedge : edgeArityOkB h = true) (htup : tupleArityOkB h = true)
    (harity : inst.args.length = (getClass h inst.cls).type_vars.length)
    (_hreach : reachableB h inst.cls a = true) :
    ((map_instance_to_supertype h inst a).cls = a ∧
        (map_instance_to_supertype h inst a).args.length
          = (getClass h a).type_vars.length) ∧
      ∀ j ∈ map_instance_to_supertypes h inst a,
        j.cls = a ∧ j.args.length = (getClass h a).type_vars.length := by
  refine ⟨?_, supertypes_shape h hedge inst a⟩
  rw [map_instance_to_supertype]
  by_cases hcs : inst.cls = a
  · rw [if_pos hcs]
    exact ⟨hcs, by rw [harity, hcs]⟩
  · rw [if_neg hcs]
    cases hr : tuple_special_case h inst a with
    | some r =>
      obtain ⟨hf, items, rfl⟩ := tuple_special_case_some_shape h inst a r hr
      dsimp only
      exact ⟨rfl, by simp [tupleArity_prop h htup a hf]⟩
    | none =>
      dsimp only
      rw [map_instance_to_supertype_general]
      split
      · next hemp =>
        refine ⟨rfl, ?_⟩
        rw [List.isEmpty_iff.mp hemp]
        rfl
      · exact supertypes_shape h hedge inst a _
          (headD_mem _ _ (supertypes_ne_nil h inst a))

/-- C8 (amended): when at least two derivation paths exist and the
generic-tuple special case does not apply (the target is not named
`builtins.tuple`, or the instance's class has no tuple shape),
`map_instance_to_supertype` returns exactly the first element of
`map_instance_to_supertypes` (on hierarchies satisfying the upstream
topological-indexing and base-edge-arity invariants). -/
theorem c8_first_of_supertypes (h : Hierarchy) (inst : Instance) (s : Nat)
    (hwf : basesBelowB h = true) (hedge : edgeArityOkB h = true)
    (hskip : (getClass h s).fullname ≠ "builtins.tuple" ∨
      (getClass h inst.cls).tuple_type = none)
    (hmulti : 2 ≤ (class_derivation_paths h inst.cls s).length) :
    (map_instance_to_supertypes h inst s).head?
      = some (map_instance_to_supertype h inst s) := by
  have hpne : class_derivation_paths h inst.cls s ≠ [] := by
    intro hnil
    rw [hnil] at hmulti
    exact absurd hmulti (by decide)
  obtain ⟨p, hpmem⟩ := List.exists_mem_of_ne_nil _ hpne
  have hslt : s < inst.cls :=
    chain_target_lt h s hwf p inst.cls (mem_paths_chain h inst.cls s p hpmem)
  have hcs : inst.cls ≠ s := Ne.symm (Nat.ne_of_lt hslt)
  have hnone : tuple_special_case h inst s = none := by
    cases hskip with
    | inl hf => exact tuple_special_case_none_of_fullname h inst s hf
    | inr ht => exact tuple_special_case_none_of_no_shape h inst s ht
  rw [map_instance_to_supertype, if_neg hcs, hnone]
  dsimp only
  rw [map_instance_to_supertype_general]
  have hresne : map_instance_to_supertypes h inst s ≠ [] := supertypes_ne_nil h inst s
  split
  · next hemp =>
    have htv : (getClass h s).type_vars = [] := List.isEmpty_iff.mp hemp
    cases hres : map_instance_to_supertypes h inst s with
    | nil => exact absurd hres hresne
    | cons j l =>
      have hjmem : j ∈ map_instance_to_supertypes h inst s := by
        rw [hres]
        exact List.mem_cons_self j l
      obtain ⟨hjcls, hjlen⟩ := supertypes_shape h hedge inst s j hjmem
      rw [htv] at hjlen
      have hj : j = ⟨s, []⟩ := by
        obtain ⟨c, a2⟩ := j
        simp only at hjcls hjlen
        obtain rfl : a2 = [] := List.eq_nil_of_length_eq_zero hjlen
        rw [hjcls]
      rw [hj]
      rfl
  · exact head?_eq_headD _ _ hresne

/-- C9: for a generic tuple-shaped class with shape `(T, str)` and
instance argument `int`, mapping to `builtins.tuple` yields the join of
`int` and `str` as the single element-type argument — never a dynamic
marker — while a self-referential (recursive) shape skips the fast path
and falls through to the general path. -/
theorem c9_tuple_expansion (h : Hierarchy) (inst : Instance) (s tid intC strC : Nat)
    (hfull : (getClass h s).fullname = "builtins.tuple")
    (hne : inst.cls ≠ s)
    (htv : (getClass h inst.cls).type_vars = [tid])
    (hshape : (getClass h inst.cls).tuple_type =
      some (Ty.tupleTy (TyList.cons (Ty.varTy tid)
        (TyList.cons (nominal strC) TyList.nil))))
    (hargs : inst.args = [nominal intC])
    (_hdiff : intC ≠ strC) :
    ((getClass h inst.cls).special_alias_is_recursive = false →
        map_instance_to_supertype h inst s =
            ⟨s, [join_type_list h [nominal intC, nominal strC]]⟩ ∧
          ∀ tag : TypeOfAny,
            join_type_list h [nominal intC, nominal strC] ≠ Ty.anyTy tag) ∧
      ((getClass h inst.cls).special_alias_is_recursive = true →
        map_instance_to_supertype h inst s
          = map_instance_to_supertype_general h inst s) := by
  have henv : instance_to_type_environment h inst = [(tid, nominal intC)] := by
    rw [instance_to_type_environment, htv, hargs]
    rfl
  have hhtv : has_type_vars (Ty.tupleTy (TyList.cons (Ty.varTy tid)
      (TyList.cons (nominal strC) TyList.nil))) = true := by
    simp [has_type_vars, has_type_vars_list]
  have hexp : expand_type (instance_to_type_environment h inst)
      (Ty.tupleTy (TyList.cons (Ty.varTy tid) (TyList.cons (nominal strC) TyList.nil)))
      = Ty.tupleTy (TyList.cons (nominal intC) (TyList.cons (nominal strC) TyList.nil)) := by
    rw [henv]
    simp [expand_type, expand_type_list, List.lookup, nominal]
  constructor
  · intro hrec
    have hcase : tuple_special_case h inst s =
        some (tuple_fallback h s [nominal intC, nominal strC]) := by
      unfold tuple_special_case
      rw [if_pos hfull, hshape]
      dsimp only
      rw [hhtv, hrec]
      simp [hexp, tuple_fallback, TyList.toList]
    constructor
    · rw [map_instance_to_supertype, if_neg hne, hcase]
      rfl
    · apply join_type_list_ne_anyTy
      intro t ht tag
      simp only [List.mem_cons, List.not_mem_nil, or_false] at ht
      rcases ht with rfl | rfl <;> simp [nominal]
  · intro hrec
    have hcase : tuple_special_case h inst s = none := by
      unfold tuple_special_case
      rw [if_pos hfull, hshape]
      dsimp only
      rw [hhtv, hrec]
      simp
    rw [map_instance_to_supertype, if_neg hne, hcase]

/-! ## A concrete hierarchy exercising the claims

Class indices: 0 `builtins.object`; 1 `builtins.tuple` (one parameter);
2 `builtins.int`; 3 `builtins.str`; 4 `B1<U1>` extending `tuple[U1]`;
5 `B2<U2>` extending `tuple[U2]`; 6 `K<T>` extending both `B1[T]` and
`B2[T]`, tuple-shaped with shape `(T, str)`; 7 `RootG<V>`; 8 `D1<W1>`
extending `RootG[W1]`; 9 `D2<W2>` extending `RootG[W2]`; 10 `KD<X>`
extending both `D1[X]` and `D2[X]` (a diamond with no tuple shape). -/

def Hdemo : Hierarchy :=
  [ ⟨"builtins.object", [], [], none, false⟩,
    ⟨"builtins.tuple", [100], [⟨0, []⟩], none, false⟩,
    ⟨"builtins.int", [], [⟨0, []⟩], none, false⟩,
    ⟨"builtins.str", [], [⟨0, []⟩], none, false⟩,
    ⟨"B1", [201], [⟨1, [Ty.varTy 201]⟩], none, false⟩,
    ⟨"B2", [202], [⟨1, [Ty.varTy 202]⟩], none, false⟩,
    ⟨"K", [300], [⟨4, [Ty.varTy 300]⟩, ⟨5, [Ty.varTy 300]⟩],
      some (Ty.tupleTy (TyList.cons (Ty.varTy 300)
        (TyList.cons (nominal 3) TyList.nil))), false⟩,
    ⟨"RootG", [400], [⟨0, []⟩], none, false⟩,
    ⟨"D1", [401], [⟨7, [Ty.varTy 401]⟩], none, false⟩,
    ⟨"D2", [402], [⟨7, [Ty.varTy 402]⟩], none, false⟩,
    ⟨"KD", [403], [⟨8, [Ty.varTy 403]⟩, ⟨9, [Ty.varTy 403]⟩], none, false⟩ ]

/-- C8 counterexample: for `K<int>` (class 6, a generic tuple-shaped
class) and target `builtins.tuple` (class 1), two derivation paths
exist, yet `map_instance_to_supertype` returns the tuple-expansion
result `tuple[object]` while the first element of
`map_instance_to_supertypes` is `tuple[int]` — so the top-level
operation does not return the first path-derived instantiation. -/
theorem c8_counterexample :
    2 ≤ (class_derivation_paths Hdemo 6 1).length ∧
      (map_instance_to_supertypes Hdemo ⟨6, [nominal 2]⟩ 1).head?
        = some ⟨1, [nominal 2]⟩ ∧
      map_instance_to_supertype Hdemo ⟨6, [nominal 2]⟩ 1 = ⟨1, [nominal 0]⟩ ∧
      (Instance.mk 1 [nominal 2]) ≠ ⟨1, [nominal 0]⟩ := by
  decide

/-! ## Witnesses -/

/-- Witness for C1 at `K<int>` mapped to `builtins.tuple` in `Hdemo`. -/
theorem c1_arity_preservation_witness :
    (edgeArityOkB Hdemo = true ∧ tupleArityOkB Hdemo = true ∧
        (Instance.mk 6 [nominal 2]).args.length
          = (getClass Hdemo (Instance.mk 6 [nominal 2]).cls).type_vars.length ∧
        reachableB Hdemo (Instance.mk 6 [nominal 2]).cls 1 = true) ∧
      (((map_instance_to_supertype Hdemo ⟨6, [nominal 2]⟩ 1).cls = 1 ∧
          (map_instance_to_supertype Hdemo ⟨6, [nominal 2]⟩ 1).args.length
            = (getClass Hdemo 1).type_vars.length) ∧
        ∀ j ∈ map_instance_to_supertypes Hdemo ⟨6, [nominal 2]⟩ 1,
          j.cls = 1 ∧ j.args.length = (getClass Hdemo 1).type_vars.length) :=
  ⟨⟨by decide, by decide, by decide, by decide⟩,
    c1_arity_preservation Hdemo ⟨6, [nominal 2]⟩ 1
      (by decide) (by decide) (by decide) (by decide)⟩

/-- Witness for C2 at `K<int>` in `Hdemo`. -/
theorem c2_identity_fast_path_witness :
    (Instance.mk 6 [nominal 2]).cls = 6 ∧
      map_instance_to_supertype Hdemo ⟨6, [nominal 2]⟩ 6 = ⟨6, [nominal 2]⟩ :=
  ⟨rfl, c2_identity_fast_path Hdemo ⟨6, [nominal 2]⟩ 6 rfl⟩

/-- Witness for C3: `builtins.object` (class 0, no bases) has no
derivation path to `builtins.tuple` (class 1). -/
theorem c3_error_fallback_witness :
    (getClass Hdemo 1).type_vars ≠ [] ∧
      (map_instance_to_supertypes Hdemo ⟨0, []⟩ 1 =
          [⟨1, List.replicate (getClass Hdemo 1).type_vars.length
              (Ty.anyTy TypeOfAny.from_error)⟩] ∧
        TypeOfAny.from_error ≠ TypeOfAny.unannotated) :=
  ⟨by decide,
    c3_error_fallback Hdemo ⟨0, []⟩ 1
      (fun p => by
        cases p with
        | nil => rfl
        | cons b rest => simp [isDerivationPath, directBase, getClass, Hdemo])
      (by decide)⟩

/-- Witness for C4: `builtins.int` (class 2) has no direct base edge to
`builtins.str` (class 3). -/
theorem c4_unannotated_fallback_witness :
    (∀ b ∈ (getClass Hdemo 2).bases, b.cls ≠ 3) ∧
      map_instance_to_direct_supertypes Hdemo ⟨2, []⟩ 3 =
        [⟨3, List.replicate (getClass Hdemo 3).type_vars.length
            (Ty.anyTy TypeOfAny.unannotated)⟩] :=
  ⟨by decide, c4_unannotated_fallback Hdemo ⟨2, []⟩ 3 (by decide)⟩

/-- Witness for C5 at the path `[4, 1]` from `K` to `builtins.tuple`. -/
theorem c5_path_enumerator_exact_witness :
    basesBelowB Hdemo = true ∧
      ([4, 1] ∈ class_derivation_paths Hdemo 6 1 ↔
        isDerivationPath Hdemo 1 6 [4, 1] = true) :=
  ⟨by decide, c5_path_enumerator_exact Hdemo 6 1 [4, 1] (by decide)⟩

/-- Witness for C6: mapping `K<int>` to `builtins.object` (class 0, no
type parameters). -/
theorem c6_no_parameter_target_witness :
    (getClass Hdemo 0).type_vars = [] ∧
      map_instance_to_supertype Hdemo ⟨6, [nominal 2]⟩ 0 = ⟨0, []⟩ :=
  ⟨by decide,
    c6_no_parameter_target Hdemo ⟨6, [nominal 2]⟩ 0 (by decide) (by decide) (by decide)⟩

/-- Witness for C7 at `K<int>` in `Hdemo`. -/
theorem c7_type_environment_witness :
    ((Instance.mk 6 [nominal 2]).args.length
        = (getClass Hdemo (Instance.mk 6 [nominal 2]).cls).type_vars.length ∧
      (getClass Hdemo (Instance.mk 6 [nominal 2]).cls).type_vars.Nodup) ∧
      ((instance_to_type_environment Hdemo ⟨6, [nominal 2]⟩).map Prod.fst
          = (getClass Hdemo (Instance.mk 6 [nominal 2]).cls).type_vars ∧
        ∀ idx : Nat,
          ∀ h1 : idx < (getClass Hdemo (Instance.mk 6 [nominal 2]).cls).type_vars.length,
          ∀ h2 : idx < (Instance.mk 6 [nominal 2]).args.length,
          (instance_to_type_environment Hdemo ⟨6, [nominal 2]⟩).lookup
              (getClass Hdemo (Instance.mk 6 [nominal 2]).cls).type_vars[idx]
            = some (Instance.mk 6 [nominal 2]).args[idx]) :=
  ⟨⟨by decide, by decide⟩,
    c7_type_environment Hdemo ⟨6, [nominal 2]⟩ (by decide) (by decide)⟩

/-- Witness for C8 (amended) at `KD<int>` (class 10) and target `RootG`
(class 7): a tuple-free diamond with two derivation paths. -/
theorem c8_first_of_supertypes_witness :
    (basesBelowB Hdemo = true ∧ edgeArityOkB Hdemo = true ∧
        (getClass Hdemo (Instance.mk 10 [nominal 2]).cls).tuple_type = none ∧
        2 ≤ (class_derivation_paths Hdemo (Instance.mk 10 [nominal 2]).cls 7).length) ∧
      (map_instance_to_supertypes Hdemo ⟨10, [nominal 2]⟩ 7).head?
        = some (map_instance_to_supertype Hdemo ⟨10, [nominal 2]⟩ 7) :=
  ⟨⟨by decide, by decide, by decide, by decide⟩,
    c8_first_of_supertypes Hdemo ⟨10, [nominal 2]⟩ 7
      (by decide) (by decide) (Or.inr (by decide)) (by decide)⟩

/-- Witness for C9 at `K<int>` (shape `(T, str)`, non-recursive) and
target `builtins.tuple` in `Hdemo`. -/
theorem c9_tuple_expansion_witness :
    ((getClass Hdemo 1).fullname = "builtins.tuple" ∧
        (Instance.mk 6 [nominal 2]).cls ≠ 1 ∧ (2 : Nat) ≠ 3) ∧
      (((getClass Hdemo (Instance.mk 6 [nominal 2]).cls).special_alias_is_recursive = false →
          map_instance_to_supertype Hdemo ⟨6, [nominal 2]⟩ 1 =
              ⟨1, [join_type_list Hdemo [nominal 2, nominal 3]]⟩ ∧
            ∀ tag : TypeOfAny,
              join_type_list Hdemo [nominal 2, nominal 3] ≠ Ty.anyTy tag) ∧
        ((getClass Hdemo (Instance.mk 6 [nominal 2]).cls).special_alias_is_recursive = true →
          map_instance_to_supertype Hdemo ⟨6, [nominal 2]⟩ 1
            = map_instance_to_supertype_general Hdemo ⟨6, [nominal 2]⟩ 1)) :=
  ⟨⟨by decide, by decide, by decide⟩,
    c9_tuple_expansion Hdemo ⟨6, [nominal 2]⟩ 1 300 2 3
      (by decide) (by decide) (by decide) (by decide) (by decide) (by decide)⟩

end Maptype
